import Mathlib

/-!
Verification of the stem-separation adapter shared by the two front-ends of
this repository (`src/app.py`, web variant, and `src/gui_vocal_separator.py`,
desktop variant).  The Python logic is shallowly embedded: the filesystem
below the external tool's output root is a finite tree, `os.walk` is the
top-down traversal that the standard library documents and both variants rely
on, and each adapter stage (command builder, locator, classifier, publisher)
is a pure Lean function translated line by line from its source.
-/

/- ------------------------------------------------------------------ -/
/- Stem classifier (src/app.py lines 151-163, gui lines 126-133)      -/
/- ------------------------------------------------------------------ -/

/-- Substring containment on character lists, the meaning of Python's
`"pat" in s`. -/
def containsSub : List Char → List Char → Bool
  | [], pat => pat.isEmpty
  | c :: t, pat => pat.isPrefixOf (c :: t) || containsSub t pat

/-- Python's `fn.lower()` restricted to the ASCII file names the tool emits. -/
def lowerName (fn : String) : List Char :=
  fn.data.map Char.toLower

/-- The vocals-bucket test: `"vocals" in low and not low.startswith("no_")`. -/
def isVocalsName (low : List Char) : Bool :=
  containsSub low "vocals".data && !(List.isPrefixOf "no_".data low)

/-- The instrumental-bucket test:
`"no_vocals" in low or "accompaniment" in low or "other" in low`. -/
def isInstName (low : List Char) : Bool :=
  containsSub low "no_vocals".data || containsSub low "accompaniment".data ||
    containsSub low "other".data

/-- One iteration of the classifier loop: each bucket keeps the latest
matching file name and otherwise carries the accumulator forward. -/
def classifyStep (acc : Option String × Option String) (fn : String) :
    Option String × Option String :=
  ((if isVocalsName (lowerName fn) then some fn else acc.1),
   (if isInstName (lowerName fn) then some fn else acc.2))

/-- The full classifier pass over a directory listing, both buckets starting
empty (`vocals = None`, `inst = None`). -/
def classify (listing : List String) : Option String × Option String :=
  listing.foldl classifyStep (none, none)

/- ------------------------------------------------------------------ -/
/- Filesystem model                                                    -/
/- ------------------------------------------------------------------ -/

mutual
/-- A directory: its own name, its subdirectories (in listing order, the
order `os.walk` and `os.listdir` report), and the names of its plain files. -/
inductive FSTree where
  | node (dname : String) (subdirs : FSForest) (files : List String)
/-- A finite list of sibling directories. -/
inductive FSForest where
  | nil
  | cons (head : FSTree) (tail : FSForest)
end

def FSTree.name : FSTree → String
  | .node n _ _ => n

def FSTree.subdirs : FSTree → FSForest
  | .node _ ds _ => ds

def FSTree.files : FSTree → List String
  | .node _ _ fs => fs

def FSForest.names : FSForest → List String
  | .nil => []
  | .cons d rest => d.name :: rest.names

def FSForest.toList : FSForest → List FSTree
  | .nil => []
  | .cons d rest => d :: rest.toList

/-- First subdirectory carrying the given name, the resolution step used by an
`os.path.isdir(os.path.join(...))` test. -/
def FSForest.findByName : FSForest → String → Option FSTree
  | .nil, _ => none
  | .cons d rest, n => if d.name == n then some d else rest.findByName n

/-- Resolve a relative component path below a directory. -/
def findDirAux : List String → FSTree → Option FSTree
  | [], t => some t
  | n :: rest, t =>
    match t.subdirs.findByName n with
    | some d => findDirAux rest d
    | none => none

def FSTree.findDir (t : FSTree) (p : List String) : Option FSTree :=
  findDirAux p t

/-- `os.path.isdir` on a relative path below the tree's root. -/
def FSTree.isDirAt (t : FSTree) (p : List String) : Bool :=
  (t.findDir p).isSome

/-- `os.listdir`: the entry names of a directory, subdirectories and files. -/
def FSTree.listdir : FSTree → List String
  | .node _ ds fs => ds.names ++ fs

/-- `os.listdir` at a relative path, empty when the path does not resolve. -/
def listdirAt (t : FSTree) (p : List String) : List String :=
  match t.findDir p with
  | some d => d.listdir
  | none => []

mutual
/-- The frames `(root, dirs)` that `os.walk` yields for the tree, top-down,
with roots as component paths relative to the tree's own directory. -/
def walkFrames : FSTree → List (List String × List String)
  | .node _ ds _ => ([], ds.names) :: walkForest ds
def walkForest : FSForest → List (List String × List String)
  | .nil => []
  | .cons d rest =>
      (walkFrames d).map (fun fr => (FSTree.name d :: fr.1, fr.2)) ++ walkForest rest
end

mutual
/-- Whether some directory strictly below the tree's root carries the name. -/
def FSTree.hasDescendantDir : FSTree → String → Bool
  | .node _ ds _, b => FSForest.hasDirNamed ds b
/-- Whether the forest holds a tree named `b`, at top level or deeper. -/
def FSForest.hasDirNamed : FSForest → String → Bool
  | .nil, _ => false
  | .cons d rest, b => d.name == b || FSTree.hasDescendantDir d b || rest.hasDirNamed b
end

/-- `os.path.basename` of a walk root: the last component, or the walked
tree's own name for the root frame. -/
def basenameAt (t : FSTree) (rel : List String) : String :=
  match rel.getLast? with
  | some n => n
  | none => t.name

/- ------------------------------------------------------------------ -/
/- Output locator, web variant (src/app.py lines 132-146)              -/
/- ------------------------------------------------------------------ -/

/-- The inner loop of the web fallback over one walk frame: the first child
directory equal to `base` yields `root/child`, and `break` leaves the frame. -/
def webScanFrame (base : String) (fr : List String × List String) :
    Option (List String) :=
  match fr.2.find? (fun d => d == base) with
  | some d => some (fr.1 ++ [d])
  | none => none

/-- One outer-loop iteration of the web fallback: a matching frame replaces
`found`, a frame without a match leaves it as it was. -/
def webStep (base : String) (acc : Option (List String))
    (fr : List String × List String) : Option (List String) :=
  match webScanFrame base fr with
  | some p => some p
  | none => acc

/-- The web fallback over all frames: `found` starts as `None` and is
overwritten by every frame that matches, because the `break` only leaves the
inner loop. -/
def webWalkFound (base : String) (frames : List (List String × List String)) :
    Option (List String) :=
  frames.foldl (webStep base) none

/-- The web locator with an instrumentation bit recording whether the
fallback walk ran; paths are relative to the output root. -/
def locateWebT (t : FSTree) (modelName base : String) :
    Except String (List String) × Bool :=
  if t.isDirAt [modelName, base] then (Except.ok [modelName, base], false)
  else
    match webWalkFound base (walkFrames t) with
    | some p => (Except.ok p, true)
    | none => (Except.error "Could not locate Demucs output folder.", true)

/-- The web locator as the caller sees it. -/
def locateWeb (t : FSTree) (modelName base : String) : Except String (List String) :=
  (locateWebT t modelName base).1

/- ------------------------------------------------------------------ -/
/- Output locator, desktop variant (gui lines 21-30)                   -/
/- ------------------------------------------------------------------ -/

/-- `locate_output_dir` with the same instrumentation bit: expected-path
check first, else the walk returning the first root whose basename matches. -/
def locateGuiT (t : FSTree) (modelName base : String) :
    Option (List String) × Bool :=
  if t.isDirAt [modelName, base] then (some [modelName, base], false)
  else
    match (walkFrames t).find? (fun fr => basenameAt t fr.1 == base) with
    | some fr => (some fr.1, true)
    | none => (none, true)

/-- `locate_output_dir` as the worker calls it. -/
def locateGui (t : FSTree) (modelName base : String) : Option (List String) :=
  (locateGuiT t modelName base).1

/- ------------------------------------------------------------------ -/
/- Job submitter (src/app.py lines 98-108, gui lines 7-8 and 107)      -/
/- ------------------------------------------------------------------ -/

def MODEL_NAME : String := "htdemucs_ft"

/-- The argument vector the web variant builds. -/
def webCmd (outRoot inputPath : String) : List String :=
  ["demucs", "--two-stems", "vocals", "-n", MODEL_NAME, "--shifts", "0",
   "--overlap", "0.05", "--jobs", "1", "--mp3", "--out", outRoot, inputPath]

def FLAGS : List String :=
  ["--two-stems=vocals", "-n", MODEL_NAME, "--shifts", "0", "--overlap", "0.05",
   "--jobs", "1", "--mp3"]

/-- The argument vector the desktop variant builds. -/
def guiCmd (outRoot audio : String) : List String :=
  "demucs" :: FLAGS ++ ["--out", outRoot, audio]

/- ------------------------------------------------------------------ -/
/- Result publisher, web variant (src/app.py lines 165-170)            -/
/- ------------------------------------------------------------------ -/

/-- Index of the last `.` in the character list, Python's `name.rfind(".")`. -/
def rfindDotAux : List Char → Nat → Option Nat
  | [], _ => none
  | c :: t, i =>
    match rfindDotAux t (i + 1) with
    | some j => some j
    | none => if c == '.' then some i else none

/-- `pathlib.Path(...).suffix` on a file name: the part from the last dot on,
empty when the dot is leading, trailing, or absent. -/
def pathSuffix (name : String) : String :=
  match rfindDotAux name.data 0 with
  | some i =>
      if 0 < i && i + 1 < name.data.length then String.mk (name.data.drop i) else ""
  | none => ""

/-- Overwrite an entry of a directory image when copying onto an existing
name, as `shutil.copy2` does. -/
def updEntry (n c : String) (e : String × String) : String × String :=
  if e.1 == n then (n, c) else e

/-- `shutil.copy2(src, dst)` restricted to a flat directory image
(name-to-content association list): overwrite when present, append when new. -/
def fsWrite (files : List (String × String)) (n c : String) :
    List (String × String) :=
  if files.any (fun e => e.1 == n) then files.map (updEntry n c)
  else files ++ [(n, c)]

/-- Destination name `f"{base}_vocals{vocals.suffix}"`. -/
def vocalsDestName (base vocalsName : String) : String :=
  base ++ "_vocals" ++ pathSuffix vocalsName

/-- Destination name `f"{base}_instrumental{inst.suffix}"`. -/
def instDestName (base instName : String) : String :=
  base ++ "_instrumental" ++ pathSuffix instName

/-- The web publish step: the two `shutil.copy2` calls into the job folder
root, vocals first. -/
def publishStems (jobFiles : List (String × String))
    (base vocalsName instName vContent iContent : String) :
    List (String × String) :=
  fsWrite (fsWrite jobFiles (vocalsDestName base vocalsName) vContent)
    (instDestName base instName) iContent

/-- Boolean check that a directory image holds no duplicate entry names. -/
def keysNodup : List (String × String) → Bool
  | [] => true
  | e :: rest => !(rest.any (fun x => x.1 == e.1)) && keysNodup rest

/- ------------------------------------------------------------------ -/
/- The web job pipeline (src/app.py lines 115-176)                     -/
/- ------------------------------------------------------------------ -/

/-- The adapter stages that follow the external-tool run. -/
inductive Stage where
  | locateStage
  | classifyStage
  | publishStage

/-- What `run_demucs_debug` sees once the subprocess has exited: the exit
code, the output-root tree the tool left behind, the input's base name, the
content of each raw file, and the job folder's current flat image. -/
structure WebInput where
  exitCode : Int
  raw : FSTree
  base : String
  content : List String → String
  jobFiles : List (String × String)

/-- `run_demucs_debug` after the subprocess: exit-code gate, locator,
classifier, publisher, with the stages that actually ran recorded.  The
result carries the two published destination names, and the returned image is
the job folder after the run. -/
def runWebJob (inp : WebInput) :
    Except String (String × String) × List (String × String) × List Stage :=
  if inp.exitCode ≠ 0 then
    (Except.error ("Demucs error (exit code " ++ toString inp.exitCode ++
        "). See above output."),
     inp.jobFiles, [])
  else
    match locateWeb inp.raw MODEL_NAME inp.base with
    | Except.error e => (Except.error e, inp.jobFiles, [Stage.locateStage])
    | Except.ok dir =>
      match classify (listdirAt inp.raw dir) with
      | (some v, some i) =>
          (Except.ok (vocalsDestName inp.base v, instDestName inp.base i),
           publishStems inp.jobFiles inp.base v i
             (inp.content (dir ++ [v])) (inp.content (dir ++ [i])),
           [Stage.locateStage, Stage.classifyStage, Stage.publishStage])
      | _ =>
          (Except.error "Could not find vocals/instrumental files.",
           inp.jobFiles, [Stage.locateStage, Stage.classifyStage])

/- ------------------------------------------------------------------ -/
/- The desktop worker (gui lines 112-148)                              -/
/- ------------------------------------------------------------------ -/

/-- The log lines the worker can append after the subprocess has exited,
one constructor per `append_log` call site. -/
inductive LogLine where
  | errorLine (msg : String)
  | doneLine
  | vocalsLine (p : List String)
  | instrumentalLine (p : List String)
  | folderLine (p : List String)
  | notFoundLine
  | tipLine

/-- The observable outcome of one worker run: the appended log lines, the
message box shown on the exception path, and the stored `result_dir`. -/
structure GuiOutcome where
  log : List LogLine
  errorBox : Option String
  resultDir : Option (List String)

/-- The worker body after `proc.wait()`: a non-zero code raises, otherwise
the locator runs, the classifier scans the located listing, and the outcome
lines are appended; no branch after a successful wait raises. -/
def guiWorker (exitCode : Int) (outRoot : FSTree) (modelName base : String) :
    GuiOutcome :=
  if exitCode ≠ 0 then
    ⟨[LogLine.errorLine ("Demucs exited with code " ++ toString exitCode)],
     some ("Demucs exited with code " ++ toString exitCode), none⟩
  else
    match locateGui outRoot modelName base with
    | none => ⟨[LogLine.notFoundLine, LogLine.tipLine], none, none⟩
    | some dir =>
        ⟨[LogLine.doneLine] ++
          (match (classify (listdirAt outRoot dir)).1 with
           | some v => [LogLine.vocalsLine (dir ++ [v])]
           | none => []) ++
          (match (classify (listdirAt outRoot dir)).2 with
           | some i => [LogLine.instrumentalLine (dir ++ [i])]
           | none => []) ++
          [LogLine.folderLine dir, LogLine.tipLine],
         none, some dir⟩

/- ------------------------------------------------------------------ -/
/- Spec-side definition for the fallback-order refinement claim        -/
/- ------------------------------------------------------------------ -/

/-- Modelled from the spec's words for the web fallback: the first directory
in walk order whose own name equals the base name. -/
def specFirstWalkDir (base : String)
    (frames : List (List String × List String)) : Option (List String) :=
  (frames.find? (fun fr => fr.1.getLast? == some base)).map (fun fr => fr.1)

/- ------------------------------------------------------------------ -/
/- Concrete output trees used as test inputs                           -/
/- ------------------------------------------------------------------ -/

/-- An output root holding two unrelated parents `p1`, `p2`, each with a
child directory named `b`: the tool's layout guess fails here and the
fallback walk sees two candidates. -/
def sampleTwoMatches : FSTree :=
  .node "raw"
    (.cons (.node "p1" (.cons (.node "b" .nil []) .nil) [])
      (.cons (.node "p2" (.cons (.node "b" .nil []) .nil) []) .nil)) []

/-- An output root in the expected `htdemucs_ft/track` shape whose stem
directory holds only a file matching the instrumental heuristic. -/
def sampleOtherOnly : FSTree :=
  .node "raw"
    (.cons (.node "htdemucs_ft"
      (.cons (.node "track" .nil ["x_other.mp3"]) .nil) []) .nil) []

/-- An output root that is itself named like the input's base name and has no
contents at all. -/
def sampleRootNamedB : FSTree := .node "b" .nil []

/-- An output root the failed tool left empty. -/
def sampleEmptyRoot : FSTree := .node "raw" .nil []

/- ------------------------------------------------------------------ -/
/- General lemmas about the fallback fold of the web locator           -/
/- ------------------------------------------------------------------ -/

theorem foldlWebStep (b : String) :
    ∀ (frames : List (List String × List String)) (acc : Option (List String)),
      frames.foldl (webStep b) acc =
        ((frames.filterMap (webScanFrame b)).getLast?).or acc := by
  intro frames
  induction frames with
  | nil => intro acc; rfl
  | cons fr frames ih =>
      intro acc
      rw [List.foldl_cons, ih]
      rcases hfx : webScanFrame b fr with _ | y
      · simp [List.filterMap_cons, hfx, webStep]
      · simp only [List.filterMap_cons, hfx, webStep]
        rw [List.getLast?_cons]
        rcases hl : (frames.filterMap (webScanFrame b)).getLast? with _ | q <;>
          simp [hl]

theorem webWalkFound_eq (b : String) (frames : List (List String × List String)) :
    webWalkFound b frames = (frames.filterMap (webScanFrame b)).getLast? := by
  unfold webWalkFound
  rw [foldlWebStep b frames none]
  exact Option.or_none

theorem webScanFrame_some_getLast (b : String) (fr : List String × List String)
    (p : List String) (h : webScanFrame b fr = some p) : p.getLast? = some b := by
  unfold webScanFrame at h
  rcases hf : fr.2.find? (fun d => d == b) with _ | d
  · rw [hf] at h; exact absurd h (by simp)
  · rw [hf] at h
    have hd : d = b := by
      have h' := List.find?_some hf
      simpa using h'
    have hp : p = fr.1 ++ [d] := by
      injection h with h'; exact h'.symm
    rw [hp, hd]
    exact List.getLast?_concat _

theorem webScanFrame_some_mem (b : String) (fr : List String × List String)
    (p : List String) (h : webScanFrame b fr = some p) : b ∈ fr.2 := by
  unfold webScanFrame at h
  rcases hf : fr.2.find? (fun d => d == b) with _ | d
  · rw [hf] at h; exact absurd h (by simp)
  · have hd : d = b := by
      have h' := List.find?_some hf
      simpa using h'
    exact hd ▸ List.mem_of_find?_eq_some hf

theorem webScanFrame_isSome_of_mem (b : String) (fr : List String × List String)
    (h : b ∈ fr.2) : (webScanFrame b fr).isSome = true := by
  unfold webScanFrame
  rcases hf : fr.2.find? (fun d => d == b) with _ | d
  · exact absurd (List.find?_eq_none.mp hf b h) (by simp)
  · rfl

theorem webWalkFound_some_getLast (b : String)
    (frames : List (List String × List String)) (p : List String)
    (h : webWalkFound b frames = some p) : p.getLast? = some b := by
  rw [webWalkFound_eq] at h
  obtain ⟨fr, _, hscan⟩ := List.mem_filterMap.mp (List.mem_of_mem_getLast? h)
  exact webScanFrame_some_getLast b fr p hscan

theorem webWalkFound_isSome (b : String)
    (frames : List (List String × List String))
    (h : ∃ fr ∈ frames, b ∈ fr.2) : (webWalkFound b frames).isSome = true := by
  rw [webWalkFound_eq]
  obtain ⟨fr, hfr, hb⟩ := h
  obtain ⟨p, hp⟩ := Option.isSome_iff_exists.mp (webScanFrame_isSome_of_mem b fr hb)
  have hmem : p ∈ frames.filterMap (webScanFrame b) :=
    List.mem_filterMap.mpr ⟨fr, hfr, hp⟩
  rw [Option.isSome_iff_ne_none]
  intro hnone
  exact List.ne_nil_of_mem hmem (List.getLast?_eq_none_iff.mp hnone)

theorem webWalkFound_none (b : String)
    (frames : List (List String × List String))
    (h : ∀ fr ∈ frames, b ∉ fr.2) : webWalkFound b frames = none := by
  rw [webWalkFound_eq]
  have hnil : frames.filterMap (webScanFrame b) = [] := by
    rw [List.filterMap_eq_nil_iff]
    intro fr hfr
    rcases hs : webScanFrame b fr with _ | p
    · rfl
    · exact absurd (webScanFrame_some_mem b fr p hs) (h fr hfr)
  rw [hnil]
  rfl

/- ------------------------------------------------------------------ -/
/- Lemmas relating the walk to the descendant-directory predicate      -/
/- ------------------------------------------------------------------ -/

theorem rootFrameMem : ∀ t : FSTree, ([], t.subdirs.names) ∈ walkFrames t := by
  intro t
  cases t with
  | node n ds fs => simp [walkFrames, FSTree.subdirs]

theorem namesHasDirNamed : ∀ (f : FSForest) (b : String),
    b ∈ f.names → f.hasDirNamed b = true
  | .nil, b => by simp [FSForest.names]
  | .cons d rest, b => by
      intro h
      simp only [FSForest.names, List.mem_cons] at h
      simp only [FSForest.hasDirNamed, Bool.or_eq_true]
      rcases h with h | h
      · exact Or.inl (Or.inl (by simp [h]))
      · exact Or.inr (namesHasDirNamed rest b h)

mutual
theorem descOfFrameTree : ∀ (t : FSTree) (b : String) (fr : List String × List String),
    fr ∈ walkFrames t → b ∈ fr.2 → FSTree.hasDescendantDir t b = true
  | .node _ ds _, b, fr => by
      intro hmem hb
      simp only [walkFrames, List.mem_cons] at hmem
      rcases hmem with rfl | hmem
      · simp only [FSTree.hasDescendantDir]
        exact namesHasDirNamed ds b (by simpa using hb)
      · simp only [FSTree.hasDescendantDir]
        exact descOfFrameForest ds b fr hmem hb
theorem descOfFrameForest : ∀ (f : FSForest) (b : String) (fr : List String × List String),
    fr ∈ walkForest f → b ∈ fr.2 → FSForest.hasDirNamed f b = true
  | .nil, b, fr => by
      intro hmem _
      simp [walkForest] at hmem
  | .cons d rest, b, fr => by
      intro hmem hb
      simp only [walkForest, List.mem_append, List.mem_map] at hmem
      simp only [FSForest.hasDirNamed, Bool.or_eq_true]
      rcases hmem with ⟨fr', hfr', rfl⟩ | hmem
      · exact Or.inl (Or.inr (descOfFrameTree d b fr' hfr' (by simpa using hb)))
      · exact Or.inr (descOfFrameForest rest b fr hmem hb)
end

mutual
theorem frameOfDescTree : ∀ (t : FSTree) (b : String),
    FSTree.hasDescendantDir t b = true → ∃ fr ∈ walkFrames t, b ∈ fr.2
  | .node _ ds _, b => by
      intro h
      simp only [FSTree.hasDescendantDir] at h
      rcases frameOfDescForest ds b h with h' | ⟨fr, hfr, hb⟩
      · exact ⟨([], ds.names), by simp [walkFrames], h'⟩
      · exact ⟨fr, by simp only [walkFrames, List.mem_cons]; exact Or.inr hfr, hb⟩
theorem frameOfDescForest : ∀ (f : FSForest) (b : String),
    FSForest.hasDirNamed f b = true →
      b ∈ f.names ∨ ∃ fr ∈ walkForest f, b ∈ fr.2
  | .nil, b => by
      intro h
      simp [FSForest.hasDirNamed] at h
  | .cons d rest, b => by
      intro h
      simp only [FSForest.hasDirNamed, Bool.or_eq_true] at h
      rcases h with (hname | hdesc) | hrest
      · left
        simp only [FSForest.names, List.mem_cons]
        exact Or.inl (eq_of_beq hname).symm
      · right
        obtain ⟨fr, hfr, hb⟩ := frameOfDescTree d b hdesc
        refine ⟨(FSTree.name d :: fr.1, fr.2), ?_, by simpa using hb⟩
        simp only [walkForest, List.mem_append, List.mem_map]
        exact Or.inl ⟨fr, hfr, rfl⟩
      · rcases frameOfDescForest rest b hrest with h' | ⟨fr, hfr, hb⟩
        · left
          simp only [FSForest.names, List.mem_cons]
          exact Or.inr h'
        · right
          refine ⟨fr, ?_, hb⟩
          simp only [walkForest, List.mem_append]
          exact Or.inr hfr
end

mutual
theorem rootDescTree : ∀ (t : FSTree) (fr : List String × List String),
    fr ∈ walkFrames t → fr.1 ≠ [] →
      ∃ lb, fr.1.getLast? = some lb ∧ FSTree.hasDescendantDir t lb = true
  | .node _ ds _, fr => by
      intro hmem hne
      simp only [walkFrames, List.mem_cons] at hmem
      rcases hmem with rfl | hmem
      · exact absurd rfl hne
      · obtain ⟨lb, h1, h2⟩ := rootDescForest ds fr hmem
        exact ⟨lb, h1, by simp only [FSTree.hasDescendantDir]; exact h2⟩
theorem rootDescForest : ∀ (f : FSForest) (fr : List String × List String),
    fr ∈ walkForest f →
      ∃ lb, fr.1.getLast? = some lb ∧ FSForest.hasDirNamed f lb = true
  | .nil, fr => by
      intro hmem
      simp [walkForest] at hmem
  | .cons d rest, fr => by
      intro hmem
      simp only [walkForest, List.mem_append, List.mem_map] at hmem
      rcases hmem with ⟨fr', hfr', rfl⟩ | hmem
      · rcases hfr1 : fr'.1 with _ | ⟨x, xs⟩
        · refine ⟨FSTree.name d, by simp [hfr1], ?_⟩
          simp [FSForest.hasDirNamed]
        · have hne : fr'.1 ≠ [] := by simp [hfr1]
          obtain ⟨lb, h1, h2⟩ := rootDescTree d fr' hfr' hne
          refine ⟨lb, ?_, ?_⟩
          · rw [hfr1, List.getLast?_cons] at h1
            simp only [List.getLast?_cons, hfr1]
            exact h1
          · simp only [FSForest.hasDirNamed, Bool.or_eq_true]
            exact Or.inl (Or.inr h2)
      · obtain ⟨lb, h1, h2⟩ := rootDescForest rest fr hmem
        refine ⟨lb, h1, ?_⟩
        simp only [FSForest.hasDirNamed, Bool.or_eq_true]
        exact Or.inr h2
end

mutual
theorem namedFrameTree : ∀ (t : FSTree) (b : String),
    FSTree.hasDescendantDir t b = true →
      ∃ fr ∈ walkFrames t, fr.1.getLast? = some b
  | .node _ ds _, b => by
      intro h
      simp only [FSTree.hasDescendantDir] at h
      obtain ⟨fr, hfr, hb⟩ := namedFrameForest ds b h
      refine ⟨fr, ?_, hb⟩
      simp only [walkFrames, List.mem_cons]
      exact Or.inr hfr
theorem namedFrameForest : ∀ (f : FSForest) (b : String),
    FSForest.hasDirNamed f b = true →
      ∃ fr ∈ walkForest f, fr.1.getLast? = some b
  | .nil, b => by
      intro h
      simp [FSForest.hasDirNamed] at h
  | .cons d rest, b => by
      intro h
      simp only [FSForest.hasDirNamed, Bool.or_eq_true] at h
      rcases h with (hname | hdesc) | hrest
      · refine ⟨(FSTree.name d :: [], d.subdirs.names), ?_, ?_⟩
        · simp only [walkForest, List.mem_append, List.mem_map]
          exact Or.inl ⟨([], d.subdirs.names), rootFrameMem d, rfl⟩
        · simp
          exact eq_of_beq hname
      · obtain ⟨fr, hfr, hb⟩ := namedFrameTree d b hdesc
        refine ⟨(FSTree.name d :: fr.1, fr.2), ?_, ?_⟩
        · simp only [walkForest, List.mem_append, List.mem_map]
          exact Or.inl ⟨fr, hfr, rfl⟩
        · simp [List.getLast?_cons, hb]
      · obtain ⟨fr, hfr, hb⟩ := namedFrameForest rest b hrest
        refine ⟨fr, ?_, hb⟩
        simp only [walkForest, List.mem_append]
        exact Or.inr hfr
end

/- ------------------------------------------------------------------ -/
/- Lemmas about the publisher's overwrite semantics                    -/
/- ------------------------------------------------------------------ -/

theorem updEntry_fst (n c : String) (e : String × String) :
    (updEntry n c e).1 = e.1 := by
  rcases e with ⟨k, v⟩
  by_cases h : k = n
  · subst h; simp [updEntry]
  · simp [updEntry, h]

theorem updEntry_updEntry (n c c' : String) (e : String × String) :
    updEntry n c' (updEntry n c e) = updEntry n c' e := by
  rcases e with ⟨k, v⟩
  by_cases h : k = n
  · subst h; simp [updEntry]
  · simp [updEntry, h]

theorem updEntry_comm (v i cv ci : String) (hvi : v ≠ i) (e : String × String) :
    updEntry v cv (updEntry i ci e) = updEntry i ci (updEntry v cv e) := by
  rcases e with ⟨k, w⟩
  by_cases hkv : k = v
  · subst hkv
    simp [updEntry, hvi, Ne.symm hvi]
  · by_cases hki : k = i
    · subst hki
      simp [updEntry, hkv, Ne.symm hvi]
    · simp [updEntry, hkv, hki]

theorem mapIdOn {α : Type} (f : α → α) :
    ∀ l : List α, (∀ x ∈ l, f x = x) → l.map f = l
  | [], _ => rfl
  | x :: l, h => by
      simp only [List.map_cons]
      rw [h x (by simp), mapIdOn f l (fun y hy => h y (by simp [hy]))]

theorem fsWrite_any_self (s : List (String × String)) (n c : String) :
    (fsWrite s n c).any (fun e => e.1 == n) = true := by
  unfold fsWrite
  by_cases h : s.any (fun e => e.1 == n) = true
  · rw [if_pos h]
    obtain ⟨e, he, hk⟩ := List.any_eq_true.mp h
    refine List.any_eq_true.mpr ⟨updEntry n c e, List.mem_map_of_mem _ he, ?_⟩
    rcases e with ⟨k, v⟩
    have hkn : k = n := by simpa using hk
    simp [updEntry, hkn]
  · rw [if_neg h]
    exact List.any_eq_true.mpr ⟨(n, c), by simp, by simp⟩

theorem fsWrite_any_other (s : List (String × String)) (n c m : String)
    (hmn : m ≠ n) :
    (fsWrite s n c).any (fun e => e.1 == m) = s.any (fun e => e.1 == m) := by
  unfold fsWrite
  by_cases h : s.any (fun e => e.1 == n) = true
  · rw [if_pos h, List.any_map]
    congr 1
    funext e
    rcases e with ⟨k, v⟩
    by_cases hk : k = n
    · subst hk
      simp [updEntry, Ne.symm hmn]
    · simp [updEntry, hk]
  · rw [if_neg h, List.any_append]
    simp [Ne.symm hmn]

theorem fsWrite_absorb (s : List (String × String)) (n c c' : String) :
    fsWrite (fsWrite s n c) n c' = fsWrite s n c' := by
  by_cases h : s.any (fun e => e.1 == n) = true
  · have e1 : fsWrite s n c = s.map (updEntry n c) := by
      unfold fsWrite; rw [if_pos h]
    have hm : (s.map (updEntry n c)).any (fun e => e.1 == n) = true := by
      have := fsWrite_any_self s n c
      rwa [e1] at this
    have e2 : fsWrite (s.map (updEntry n c)) n c' =
        (s.map (updEntry n c)).map (updEntry n c') := by
      unfold fsWrite; rw [if_pos hm]
    have e3 : fsWrite s n c' = s.map (updEntry n c') := by
      unfold fsWrite; rw [if_pos h]
    rw [e1, e2, e3, List.map_map]
    congr 1
    funext e
    exact updEntry_updEntry n c c' e
  · have e1 : fsWrite s n c = s ++ [(n, c)] := by
      unfold fsWrite; rw [if_neg h]
    have hm : (s ++ [(n, c)]).any (fun e => e.1 == n) = true := by
      rw [List.any_append]; simp
    have e2 : fsWrite (s ++ [(n, c)]) n c' = (s ++ [(n, c)]).map (updEntry n c') := by
      unfold fsWrite; rw [if_pos hm]
    have e3 : fsWrite s n c' = s ++ [(n, c')] := by
      unfold fsWrite; rw [if_neg h]
    rw [e1, e2, e3, List.map_append]
    congr 1
    · refine mapIdOn _ s (fun e he => ?_)
      rcases e with ⟨k, v⟩
      have hk : ¬ k = n := fun hkn =>
        h (List.any_eq_true.mpr ⟨(k, v), he, by simp [hkn]⟩)
      simp [updEntry, hk]
    · simp [updEntry]

theorem fsWrite_swap (s : List (String × String)) (v i cv ci : String)
    (hvi : v ≠ i) (hv : s.any (fun e => e.1 == v) = true) :
    fsWrite (fsWrite s i ci) v cv = fsWrite (fsWrite s v cv) i ci := by
  have e2 : fsWrite s v cv = s.map (updEntry v cv) := by
    unfold fsWrite; rw [if_pos hv]
  by_cases hi : s.any (fun e => e.1 == i) = true
  · have e1 : fsWrite s i ci = s.map (updEntry i ci) := by
      unfold fsWrite; rw [if_pos hi]
    have hv' : (s.map (updEntry i ci)).any (fun e => e.1 == v) = true := by
      have := fsWrite_any_other s i ci v hvi
      rw [e1] at this
      rw [this]; exact hv
    have hi' : (s.map (updEntry v cv)).any (fun e => e.1 == i) = true := by
      have := fsWrite_any_other s v cv i (Ne.symm hvi)
      rw [e2] at this
      rw [this]; exact hi
    have e3 : fsWrite (s.map (updEntry i ci)) v cv =
        (s.map (updEntry i ci)).map (updEntry v cv) := by
      unfold fsWrite; rw [if_pos hv']
    have e4 : fsWrite (s.map (updEntry v cv)) i ci =
        (s.map (updEntry v cv)).map (updEntry i ci) := by
      unfold fsWrite; rw [if_pos hi']
    rw [e1, e3, e2, e4, List.map_map, List.map_map]
    congr 1
    funext e
    exact updEntry_comm v i cv ci hvi e
  · have e1 : fsWrite s i ci = s ++ [(i, ci)] := by
      unfold fsWrite; rw [if_neg hi]
    have hv' : (s ++ [(i, ci)]).any (fun e => e.1 == v) = true := by
      rw [List.any_append]; simp [hv]
    have e3 : fsWrite (s ++ [(i, ci)]) v cv = (s ++ [(i, ci)]).map (updEntry v cv) := by
      unfold fsWrite; rw [if_pos hv']
    have hi' : ¬ (s.map (updEntry v cv)).any (fun e => e.1 == i) = true := by
      have := fsWrite_any_other s v cv i (Ne.symm hvi)
      rw [e2] at this
      rw [this]; exact hi
    have e4 : fsWrite (s.map (updEntry v cv)) i ci =
        s.map (updEntry v cv) ++ [(i, ci)] := by
      unfold fsWrite; rw [if_neg hi']
    rw [e1, e3, e2, e4, List.map_append]
    congr 1
    simp [updEntry, Ne.symm hvi]

theorem publishStems_overwritten (s : List (String × String))
    (base v i cv ci : String) :
    publishStems (publishStems s base v i cv ci) base v i cv ci =
      publishStems s base v i cv ci := by
  unfold publishStems
  by_cases hvi : vocalsDestName base v = instDestName base i
  · rw [hvi]
    rw [fsWrite_absorb (fsWrite (fsWrite s (instDestName base i) cv)
          (instDestName base i) ci) (instDestName base i) cv ci]
    rw [fsWrite_absorb (fsWrite s (instDestName base i) cv) (instDestName base i) ci ci]
  · have hv1 : (fsWrite s (vocalsDestName base v) cv).any
        (fun e => e.1 == vocalsDestName base v) = true :=
      fsWrite_any_self s (vocalsDestName base v) cv
    rw [fsWrite_swap (fsWrite s (vocalsDestName base v) cv)
          (vocalsDestName base v) (instDestName base i) cv ci hvi hv1]
    rw [fsWrite_absorb s (vocalsDestName base v) cv cv]
    rw [fsWrite_absorb (fsWrite s (vocalsDestName base v) cv)
          (instDestName base i) ci ci]

theorem keysNodup_map_upd (n c : String) :
    ∀ s : List (String × String), keysNodup (s.map (updEntry n c)) = keysNodup s
  | [] => rfl
  | e :: rest => by
      simp only [List.map_cons, keysNodup]
      rw [keysNodup_map_upd n c rest]
      have hany : (rest.map (updEntry n c)).any
          (fun x => x.1 == (updEntry n c e).1) = rest.any (fun x => x.1 == e.1) := by
        rw [List.any_map]
        congr 1
        funext x
        simp [Function.comp, updEntry_fst]
      rw [hany]

theorem keysNodup_append_new (n c : String) :
    ∀ s : List (String × String), keysNodup s = true →
      s.any (fun e => e.1 == n) = false → keysNodup (s ++ [(n, c)]) = true
  | [], _, _ => rfl
  | e :: rest, hnd, habs => by
      simp only [List.any_cons, Bool.or_eq_false_iff] at habs
      simp only [keysNodup, Bool.and_eq_true] at hnd
      obtain ⟨h1, h2⟩ := hnd
      have h1' : rest.any (fun x => x.1 == e.1) = false := by
        simpa using h1
      have hrec := keysNodup_append_new n c rest h2 habs.2
      have hne : (n == e.1) = false := by
        cases hq : (n == e.1)
        · rfl
        · have hn : n = e.1 := by simpa using hq
          have hcontra := habs.1
          rw [hn] at hcontra
          simp at hcontra
      simp [keysNodup, List.any_append, h1', hrec, hne]

theorem keysNodup_fsWrite (s : List (String × String)) (n c : String)
    (h : keysNodup s = true) : keysNodup (fsWrite s n c) = true := by
  unfold fsWrite
  by_cases hp : s.any (fun e => e.1 == n) = true
  · rw [if_pos hp, keysNodup_map_upd]
    exact h
  · rw [if_neg hp]
    exact keysNodup_append_new n c s h (Bool.not_eq_true _ |>.mp hp)

theorem destName_ne (base s1 s2 : String) :
    base ++ "_vocals" ++ s1 ≠ base ++ "_instrumental" ++ s2 := by
  intro h
  have hd := congrArg String.data h
  simp only [String.data_append] at hd
  rw [List.append_assoc, List.append_assoc] at hd
  have hd' := List.append_cancel_left hd
  simp only [List.cons_append] at hd'
  injection hd' with _ hd2
  injection hd2 with hd3 _
  exact absurd hd3 (by decide)

theorem vocalsDest_ne_instDest (base v i : String) :
    vocalsDestName base v ≠ instDestName base i := by
  unfold vocalsDestName instDestName
  exact destName_ne base (pathSuffix v) (pathSuffix i)

/- ------------------------------------------------------------------ -/
/- Claim theorems                                                      -/
/- ------------------------------------------------------------------ -/

/-- C1 (counterexample): on the listing
["track_vocals.mp3", "track_no_vocals.mp3"] the classifier does NOT keep
track_vocals.mp3 as the vocals candidate: track_no_vocals.mp3 also passes
the vocals test, because the startswith guard checks the whole file name
and "track_no_vocals.mp3" does not begin with "no_", and last match wins. -/
theorem C1_counterexample :
    classify ["track_vocals.mp3", "track_no_vocals.mp3"] =
      (some "track_no_vocals.mp3", some "track_no_vocals.mp3") ∧
    (classify ["track_vocals.mp3", "track_no_vocals.mp3"]).1 ≠
      some "track_vocals.mp3" :=
  ⟨rfl, by decide⟩

/-- C1 (amended): on that listing both buckets end at track_no_vocals.mp3,
since the "no_" guard only excludes names literally beginning with "no_";
on the names the tool really emits, vocals.mp3 and no_vocals.mp3, the guard
does exclude no_vocals.mp3 and the claimed classification holds. -/
theorem C1_amended :
    classify ["track_vocals.mp3", "track_no_vocals.mp3"] =
      (some "track_no_vocals.mp3", some "track_no_vocals.mp3") ∧
    isVocalsName (lowerName "track_no_vocals.mp3") = true ∧
    isVocalsName (lowerName "no_vocals.mp3") = false ∧
    classify ["vocals.mp3", "no_vocals.mp3"] =
      (some "vocals.mp3", some "no_vocals.mp3") :=
  ⟨rfl, rfl, rfl, rfl⟩

/-- C2 (counterexample): with two directories named b under different
parents, the web fallback returns the match of the LAST frame in walk order
(p2/b), while the first directory in walk order named b is p1/b: the break
only leaves the inner loop, so later frames overwrite found. -/
theorem C2_counterexample :
    locateWeb sampleTwoMatches MODEL_NAME "b" = Except.ok ["p2", "b"] ∧
    specFirstWalkDir "b" (walkFrames sampleTwoMatches) = some ["p1", "b"] ∧
    (["p2", "b"] : List String) ≠ ["p1", "b"] :=
  ⟨rfl, rfl, by decide⟩

/-- C2 (amended): when the expected path is missing, the web fallback
returns the match of the last frame in walk order holding a child directory
named base (the first such child within that frame), not the first. -/
theorem C2_amended (t : FSTree) (m b : String)
    (hexp : t.findDir [m, b] = none) :
    locateWeb t m b =
      (match ((walkFrames t).filterMap (webScanFrame b)).getLast? with
       | some p => Except.ok p
       | none => Except.error "Could not locate Demucs output folder.") := by
  have hdir : t.isDirAt [m, b] = false := by
    unfold FSTree.isDirAt
    rw [hexp]
    rfl
  unfold locateWeb locateWebT
  rw [if_neg (by simp [hdir]), webWalkFound_eq]
  rcases ((walkFrames t).filterMap (webScanFrame b)).getLast? with _ | p <;> rfl

/-- C2 (witness): the amended fallback description evaluated on the
two-candidate tree. -/
theorem C2_amended_witness :
    locateWeb sampleTwoMatches MODEL_NAME "b" =
      (match ((walkFrames sampleTwoMatches).filterMap
          (webScanFrame "b")).getLast? with
       | some p => Except.ok p
       | none => Except.error "Could not locate Demucs output folder.") :=
  C2_amended sampleTwoMatches MODEL_NAME "b" rfl

/-- C3 (counterexample): on the listing ["x_other.mp3"] the vocals bucket is
empty, yet the desktop worker does not fail the job: no message box, the
Done line is logged and only the vocals line is omitted. -/
theorem C3_counterexample :
    (classify ["x_other.mp3"]).1 = none ∧
    (classify ["x_other.mp3"]).2 = some "x_other.mp3" ∧
    guiWorker 0 sampleOtherOnly MODEL_NAME "track" =
      ⟨[LogLine.doneLine,
        LogLine.instrumentalLine ["htdemucs_ft", "track", "x_other.mp3"],
        LogLine.folderLine ["htdemucs_ft", "track"], LogLine.tipLine],
       none, some ["htdemucs_ft", "track"]⟩ :=
  ⟨rfl, rfl, rfl⟩

/-- C3 (amended): only the web variant fails the job when a bucket is empty
after the scan, and does so for the x_other listing although the
instrumental match succeeded; the desktop variant completes without any
failure surface. -/
theorem C3_amended :
    (∀ (inp : WebInput) (dir : List String), inp.exitCode = 0 →
        locateWeb inp.raw MODEL_NAME inp.base = Except.ok dir →
        ((classify (listdirAt inp.raw dir)).1 = none ∨
          (classify (listdirAt inp.raw dir)).2 = none) →
        (runWebJob inp).1 =
          Except.error "Could not find vocals/instrumental files.") ∧
    (guiWorker 0 sampleOtherOnly MODEL_NAME "track").errorBox = none ∧
    (runWebJob ⟨0, sampleOtherOnly, "track", (fun _ => ""), []⟩).1 =
      Except.error "Could not find vocals/instrumental files." := by
  refine ⟨?_, rfl, rfl⟩
  intro inp dir h0 hloc hmiss
  rcases hc : classify (listdirAt inp.raw dir) with ⟨o1, o2⟩
  rw [hc] at hmiss
  rcases o1 with _ | v
  · simp [runWebJob, h0, hloc, hc]
  · rcases o2 with _ | i
    · simp [runWebJob, h0, hloc, hc]
    · simp at hmiss

/-- C3 (witness): the amended web failure evaluated on the x_other tree. -/
theorem C3_amended_witness :
    (runWebJob ⟨0, sampleOtherOnly, "track", (fun _ => ""), []⟩).1 =
      Except.error "Could not find vocals/instrumental files." :=
  C3_amended.1 ⟨0, sampleOtherOnly, "track", (fun _ => ""), []⟩
    ["htdemucs_ft", "track"] rfl rfl (Or.inl rfl)

/-- C4: a non-zero exit status of the external tool yields the failure
result carrying the exit code in both variants, whatever the output root
already holds; the web pipeline executes no later stage (empty stage trace,
job folder image untouched) and the desktop worker only logs the error and
shows the error box. -/
theorem C4_nonzero_exit_fails (inp : WebInput) (t : FSTree) (m b : String)
    (h : inp.exitCode ≠ 0) :
    runWebJob inp =
      (Except.error ("Demucs error (exit code " ++ toString inp.exitCode ++
          "). See above output."), inp.jobFiles, []) ∧
    guiWorker inp.exitCode t m b =
      ⟨[LogLine.errorLine ("Demucs exited with code " ++ toString inp.exitCode)],
       some ("Demucs exited with code " ++ toString inp.exitCode), none⟩ := by
  constructor
  · unfold runWebJob
    rw [if_pos h]
  · unfold guiWorker
    rw [if_pos h]

/-- C4 (witness): exit code 3 on an empty output root. -/
theorem C4_witness :
    runWebJob ⟨3, sampleEmptyRoot, "song", (fun _ => ""), []⟩ =
      (Except.error ("Demucs error (exit code " ++ toString (3 : Int) ++
          "). See above output."), [], []) ∧
    guiWorker 3 sampleEmptyRoot MODEL_NAME "song" =
      ⟨[LogLine.errorLine ("Demucs exited with code " ++ toString (3 : Int))],
       some ("Demucs exited with code " ++ toString (3 : Int)), none⟩ :=
  C4_nonzero_exit_fails ⟨3, sampleEmptyRoot, "song", (fun _ => ""), []⟩
    sampleEmptyRoot MODEL_NAME "song" (by decide)

/-- C5: whenever the expected directory root/m/b exists, both locators
return exactly that path and the fallback walk does not run. -/
theorem C5_expected_path_short_circuit (t : FSTree) (m b : String)
    (h : t.isDirAt [m, b] = true) :
    locateWebT t m b = (Except.ok [m, b], false) ∧
    locateGuiT t m b = (some [m, b], false) := by
  constructor
  · unfold locateWebT
    rw [if_pos h]
  · unfold locateGuiT
    rw [if_pos h]

/-- C5 (witness): the expected-path short circuit on the x_other tree. -/
theorem C5_witness :
    FSTree.isDirAt sampleOtherOnly ["htdemucs_ft", "track"] = true ∧
    locateWebT sampleOtherOnly MODEL_NAME "track" =
      (Except.ok ["htdemucs_ft", "track"], false) ∧
    locateGuiT sampleOtherOnly MODEL_NAME "track" =
      (some ["htdemucs_ft", "track"], false) :=
  ⟨rfl, (C5_expected_path_short_circuit sampleOtherOnly MODEL_NAME "track" rfl).1,
   (C5_expected_path_short_circuit sampleOtherOnly MODEL_NAME "track" rfl).2⟩

/-- C6: when the expected path is missing but some directory named b exists
below the output root, the web locator returns a path whose last component
is b and the desktop locator returns a path whose basename is b. -/
theorem C6_fallback_finds_named_dir (t : FSTree) (m b : String)
    (hdesc : t.hasDescendantDir b = true)
    (hexp : t.findDir [m, b] = none) :
    (∃ p, locateWeb t m b = Except.ok p ∧ p.getLast? = some b) ∧
    (∃ r, locateGui t m b = some r ∧ basenameAt t r = b) := by
  have hdir : t.isDirAt [m, b] = false := by
    unfold FSTree.isDirAt
    rw [hexp]
    rfl
  constructor
  · obtain ⟨fr, hfr, hb⟩ := frameOfDescTree t b hdesc
    have hsome := webWalkFound_isSome b (walkFrames t) ⟨fr, hfr, hb⟩
    obtain ⟨p, hp⟩ := Option.isSome_iff_exists.mp hsome
    refine ⟨p, ?_, webWalkFound_some_getLast b (walkFrames t) p hp⟩
    unfold locateWeb locateWebT
    rw [if_neg (by simp [hdir]), hp]
  · obtain ⟨fr, hfr, hlast⟩ := namedFrameTree t b hdesc
    have hfind : ((walkFrames t).find?
        (fun fr => basenameAt t fr.1 == b)).isSome = true :=
      List.find?_isSome.mpr ⟨fr, hfr, by simp [basenameAt, hlast]⟩
    obtain ⟨fr0, hfr0⟩ := Option.isSome_iff_exists.mp hfind
    have hpred := List.find?_some hfr0
    refine ⟨fr0.1, ?_, by simpa using hpred⟩
    unfold locateGui locateGuiT
    rw [if_neg (by simp [hdir]), hfr0]

/-- C6 (witness): the fallback on the two-candidate tree. -/
theorem C6_witness :
    (∃ p, locateWeb sampleTwoMatches MODEL_NAME "b" = Except.ok p ∧
        p.getLast? = some "b") ∧
    (∃ r, locateGui sampleTwoMatches MODEL_NAME "b" = some r ∧
        basenameAt sampleTwoMatches r = "b") :=
  C6_fallback_finds_named_dir sampleTwoMatches MODEL_NAME "b" rfl rfl

/-- C7 (counterexample): an output root itself named b, with nothing inside,
has no directory named b below it and no expected path, yet the desktop
locator returns the root itself rather than the no-result value, because the
walk also visits the root and compares its basename. -/
theorem C7_counterexample :
    FSTree.hasDescendantDir sampleRootNamedB "b" = false ∧
    FSTree.findDir sampleRootNamedB ["htdemucs_ft", "b"] = none ∧
    locateGui sampleRootNamedB MODEL_NAME "b" = some [] ∧
    locateGui sampleRootNamedB MODEL_NAME "b" ≠ none :=
  ⟨rfl, rfl, rfl, by decide⟩

/-- C7 (amended): with no directory named b below the root and no expected
path, the web locator always fails with the locate error; the desktop
locator returns the no-result value provided the output root itself is not
named b. -/
theorem C7_amended (t : FSTree) (m b : String)
    (hdesc : t.hasDescendantDir b = false)
    (hexp : t.findDir [m, b] = none) :
    locateWeb t m b = Except.error "Could not locate Demucs output folder." ∧
    (t.name ≠ b → locateGui t m b = none) := by
  have hdir : t.isDirAt [m, b] = false := by
    unfold FSTree.isDirAt
    rw [hexp]
    rfl
  constructor
  · have hnone : webWalkFound b (walkFrames t) = none := by
      apply webWalkFound_none
      intro fr hfr hb
      have := descOfFrameTree t b fr hfr hb
      rw [hdesc] at this
      exact Bool.noConfusion this
    unfold locateWeb locateWebT
    rw [if_neg (by simp [hdir]), hnone]
  · intro hname
    have hfind : (walkFrames t).find?
        (fun fr => basenameAt t fr.1 == b) = none := by
      apply List.find?_eq_none.mpr
      intro fr hfr
      rcases hfr1 : fr.1 with _ | ⟨x, xs⟩
      · simp [basenameAt, hfr1, hname]
      · have hne : fr.1 ≠ [] := by simp [hfr1]
        obtain ⟨lb, h1, h2⟩ := rootDescTree t fr hfr hne
        have hlb : lb ≠ b := by
          intro hq
          rw [hq, hdesc] at h2
          exact Bool.noConfusion h2
        rw [hfr1] at h1
        simp [basenameAt, h1, hlb]
    unfold locateGui locateGuiT
    rw [if_neg (by simp [hdir]), hfind]

/-- C7 (witness): the amended locate failure on an empty root named raw. -/
theorem C7_amended_witness :
    locateWeb sampleEmptyRoot MODEL_NAME "b" =
      Except.error "Could not locate Demucs output folder." ∧
    locateGui sampleEmptyRoot MODEL_NAME "b" = none :=
  ⟨(C7_amended sampleEmptyRoot MODEL_NAME "b" rfl rfl).1,
   (C7_amended sampleEmptyRoot MODEL_NAME "b" rfl rfl).2 (by decide)⟩

/-- C8: publishing twice with the same classified inputs leaves the job
folder image exactly as after the first publish (copy overwrites), the two
destination names can never collide, and publishing preserves freedom from
duplicate entries. -/
theorem C8_publish_idempotent (jobFiles : List (String × String))
    (base v i cv ci : String) :
    publishStems (publishStems jobFiles base v i cv ci) base v i cv ci =
      publishStems jobFiles base v i cv ci ∧
    vocalsDestName base v ≠ instDestName base i ∧
    (keysNodup jobFiles = true →
      keysNodup (publishStems jobFiles base v i cv ci) = true) := by
  refine ⟨publishStems_overwritten jobFiles base v i cv ci,
    vocalsDest_ne_instDest base v i, ?_⟩
  intro h
  unfold publishStems
  exact keysNodup_fsWrite _ _ _ (keysNodup_fsWrite _ _ _ h)

/-- C8 (witness): publishing the two stems twice into an empty job folder. -/
theorem C8_witness :
    publishStems (publishStems [] "track" "vocals.mp3" "no_vocals.mp3" "A" "B")
        "track" "vocals.mp3" "no_vocals.mp3" "A" "B" =
      publishStems [] "track" "vocals.mp3" "no_vocals.mp3" "A" "B" ∧
    keysNodup (publishStems [] "track" "vocals.mp3" "no_vocals.mp3" "A" "B") =
      true :=
  ⟨(C8_publish_idempotent [] "track" "vocals.mp3" "no_vocals.mp3" "A" "B").1,
   (C8_publish_idempotent [] "track" "vocals.mp3" "no_vocals.mp3" "A" "B").2.2 rfl⟩

/-- C9: for every input path and output root, both variants build exactly
the documented argument vector, with the input path as the final positional
argument. -/
theorem C9_command_vector (outRoot inputPath : String) :
    webCmd outRoot inputPath =
      ["demucs", "--two-stems", "vocals", "-n", "htdemucs_ft", "--shifts", "0",
       "--overlap", "0.05", "--jobs", "1", "--mp3", "--out", outRoot,
       inputPath] ∧
    (webCmd outRoot inputPath).getLast? = some inputPath ∧
    guiCmd outRoot inputPath =
      ["demucs", "--two-stems=vocals", "-n", "htdemucs_ft", "--shifts", "0",
       "--overlap", "0.05", "--jobs", "1", "--mp3", "--out", outRoot,
       inputPath] ∧
    (guiCmd outRoot inputPath).getLast? = some inputPath :=
  ⟨rfl, rfl, rfl, rfl⟩

/-- C10: when classification fails in the web variant the pipeline returns
the classification error, the job folder image is exactly the input one, and
the publish stage is absent from the executed-stage trace. -/
theorem C10_no_partial_publish (inp : WebInput) (dir : List String)
    (h0 : inp.exitCode = 0)
    (hloc : locateWeb inp.raw MODEL_NAME inp.base = Except.ok dir)
    (hmiss : (classify (listdirAt inp.raw dir)).1 = none ∨
      (classify (listdirAt inp.raw dir)).2 = none) :
    runWebJob inp =
      (Except.error "Could not find vocals/instrumental files.", inp.jobFiles,
       [Stage.locateStage, Stage.classifyStage]) := by
  rcases hc : classify (listdirAt inp.raw dir) with ⟨o1, o2⟩
  rw [hc] at hmiss
  rcases o1 with _ | v
  · simp [runWebJob, h0, hloc, hc]
  · rcases o2 with _ | i
    · simp [runWebJob, h0, hloc, hc]
    · simp at hmiss

/-- C10 (witness): the failed classification on the x_other tree leaves the
empty job folder empty. -/
theorem C10_witness :
    runWebJob ⟨0, sampleOtherOnly, "track", (fun _ => ""), []⟩ =
      (Except.error "Could not find vocals/instrumental files.", [],
       [Stage.locateStage, Stage.classifyStage]) :=
  C10_no_partial_publish ⟨0, sampleOtherOnly, "track", (fun _ => ""), []⟩
    ["htdemucs_ft", "track"] rfl rfl (Or.inl rfl)
